import Mathlib

unseal Rat.add Rat.mul Rat.inv Rat.sub

/-!
Verification of the blender-workflows road-segmentation scripts.

The development shallowly embeds the algorithmic core of
`src/race-game/road_split.py`, `src/race-game/road_ucx_gen.py` and
`src/race-game/split_road_mesh.py`.  Python floats are embedded as exact
rationals (`ℚ`); `math`/`mathutils` square roots are embedded by `ratSqrt`
(an exact rational integer-square-root construction) which agrees with the
true square root on the perfect squares arising in all concrete
computations below; Python `int()` truncation is embedded by
`pyInt` (truncation toward zero).  Blender scene state is modelled as the
list of object names a call links into the scene and does not remove.
-/

/-- Newton iteration for the integer square root, fuel-bounded so that it
is structurally recursive (and hence evaluates inside the kernel): from a
guess `x ≥ ⌊√n⌋` the iteration decreases monotonically to `⌊√n⌋`. -/
def isqrtIter (n : ℕ) : ℕ → ℕ → ℕ
  | _, 0 => 0
  | x, fuel + 1 =>
      let next := (x + n / x) / 2
      if next < x then isqrtIter n next fuel else x

/-- `⌊√n⌋` via Newton iteration started at `n` with ample fuel. -/
def natSqrt (n : ℕ) : ℕ := if n = 0 then 0 else isqrtIter n n n

/-- Square root on `ℚ`: integer square roots of numerator and denominator
(the same shape as Mathlib's `Rat.sqrt`); exact on perfect squares, which
covers every concrete length computed in this development. -/
def ratSqrt (q : ℚ) : ℚ := mkRat (Int.ofNat (natSqrt q.num.toNat)) (natSqrt q.den)

/-- 3D vector over exact rationals, embedding `mathutils.Vector`. -/
structure Vec3 where
  x : ℚ
  y : ℚ
  z : ℚ
deriving DecidableEq, Repr

instance : Inhabited Vec3 := ⟨⟨0, 0, 0⟩⟩

instance : Add Vec3 := ⟨fun a b => ⟨a.x + b.x, a.y + b.y, a.z + b.z⟩⟩

instance : Sub Vec3 := ⟨fun a b => ⟨a.x - b.x, a.y - b.y, a.z - b.z⟩⟩

/-- Scalar multiplication of a vector. -/
def Vec3.smul (q : ℚ) (v : Vec3) : Vec3 := ⟨q * v.x, q * v.y, q * v.z⟩

/-- Dot product, embedding `mathutils.Vector.dot`. -/
def Vec3.dot (a b : Vec3) : ℚ := a.x * b.x + a.y * b.y + a.z * b.z

/-- `mathutils` linear interpolation `a.lerp(b, t) = a + (b - a) * t`. -/
def Vec3.lerp (a b : Vec3) (t : ℚ) : Vec3 :=
  ⟨a.x + (b.x - a.x) * t, a.y + (b.y - a.y) * t, a.z + (b.z - a.z) * t⟩

/-- Euclidean length, embedding `mathutils.Vector.length`; float sqrt is
embedded as `ratSqrt`, exact whenever the squared length is a perfect
square of a rational (true in every concrete computation below). -/
def Vec3.length (v : Vec3) : ℚ := ratSqrt (Vec3.dot v v)

/-- `mathutils.Vector.normalized()`: divide by the length; a zero-length
vector yields the zero vector (rational division by zero is zero, matching
`mathutils`' zero-vector convention). -/
def Vec3.normalized (v : Vec3) : Vec3 :=
  ⟨v.x / Vec3.length v, v.y / Vec3.length v, v.z / Vec3.length v⟩

/-- Python `int()` applied to a rational: truncation toward zero. -/
def pyInt (q : ℚ) : ℤ := if 0 ≤ q then ⌊q⌋ else ⌈q⌉

/-- Python `min` over a nonempty list, given as head plus tail
(`min(x :: xs)` folds `min` from the left, as CPython does). -/
def pyMin {α : Type} [Min α] (x : α) (xs : List α) : α := xs.foldl min x

/-- Python `max` over a nonempty list, head plus tail. -/
def pyMax {α : Type} [Max α] (x : α) (xs : List α) : α := xs.foldl max x

/-- Affine world transform (`Object.matrix_world`): linear part given by
rows `r1 r2 r3`, translation `tr`. -/
structure Affine where
  r1 : Vec3
  r2 : Vec3
  r3 : Vec3
  tr : Vec3
deriving DecidableEq, Repr

/-- Apply the full affine transform (`matrix_world @ point`). -/
def Affine.apply (m : Affine) (v : Vec3) : Vec3 :=
  ⟨Vec3.dot m.r1 v + m.tr.x, Vec3.dot m.r2 v + m.tr.y, Vec3.dot m.r3 v + m.tr.z⟩

/-- Apply only the linear 3×3 part (`matrix_world.to_3x3() @ vector`). -/
def Affine.applyLinear (m : Affine) (v : Vec3) : Vec3 :=
  ⟨Vec3.dot m.r1 v, Vec3.dot m.r2 v, Vec3.dot m.r3 v⟩

/-- The identity world transform. -/
def Affine.id : Affine :=
  ⟨⟨1, 0, 0⟩, ⟨0, 1, 0⟩, ⟨0, 0, 1⟩, ⟨0, 0, 0⟩⟩

/-! ## Bucket strategy: `road_split.py` (`split_road_by_len`)

`road_ucx_gen.py` (`create_ucx_collision_sections`, lines 66–77) implements
the identical vertex-bucket / face-min classification; the definitions below
embed both. -/

/-- Mesh snapshot used by the bucket strategy: vertex positions, faces as
lists of vertex indices, and named per-vertex float attribute layers
(`bm.verts.layers.float`). -/
structure BMesh where
  verts : List Vec3
  faces : List (List ℕ)
  attrs : List (String × List ℚ)
deriving DecidableEq, Repr

/-- `road_split.py` line 32: `span = max_len - min_len if max_len > min_len
else 1.0`. -/
def spanOf (minV maxV : ℚ) : ℚ := if maxV > minV then maxV - minV else 1

/-- `road_split.py` lines 37–38: `t = (v[layer] - min_len) / span;
seg = min(int(t * num_divisions), num_divisions - 1)`. -/
def bucketOf (minV span : ℚ) (n : ℕ) (value : ℚ) : ℤ :=
  min (pyInt ((value - minV) / span * (n : ℚ))) ((n : ℤ) - 1)

/-- `road_split.py` line 31: `min_len = min(len_values)` (the empty-list
case is junk: Python `min([])` raises, and all theorems assume at least one
vertex). -/
def attrMin (vals : List ℚ) : ℚ :=
  match vals with
  | [] => 0
  | v :: vs => pyMin v vs

/-- `road_split.py` line 31: `max_len = max(len_values)`. -/
def attrMax (vals : List ℚ) : ℚ :=
  match vals with
  | [] => 0
  | v :: vs => pyMax v vs

/-- `road_split.py` lines 30–39: per-vertex segment index from the named
attribute values `vals`. -/
def vertToSegment (vals : List ℚ) (n : ℕ) (i : ℕ) : ℤ :=
  bucketOf (attrMin vals) (spanOf (attrMin vals) (attrMax vals)) n (vals.getD i 0)

/-- `road_split.py` lines 43–45: a face goes to the minimum segment index
among its vertices (`min(segs)`); the empty-face case is junk (Blender
faces have ≥ 3 vertices). -/
def faceToSegment (vals : List ℚ) (n : ℕ) (face : List ℕ) : ℤ :=
  match face.map (vertToSegment vals n) with
  | [] => 0
  | s :: ss => pyMin s ss

/-- `bmesh.faces.new` identifies a face by its vertex set: re-inserting a
face with the same vertex set raises `ValueError` (caught and skipped). -/
def sameVertSet (f g : List ℕ) : Bool := decide (f.toFinset = g.toFinset)

/-- `road_split.py` lines 52–63: one step of the per-segment face-copy loop;
a face whose vertex set is already present is silently skipped. -/
def segFacesStep (vals : List ℚ) (n : ℕ) (seg : ℕ)
    (acc : List (List ℕ)) (f : List ℕ) : List (List ℕ) :=
  if faceToSegment vals n f = (seg : ℤ) then
    if acc.any (fun g => sameVertSet g f) then acc else acc ++ [f]
  else acc

/-- `road_split.py` lines 48–63: the faces copied into segment `seg`
(vertex copying via `vmap` only remaps indices and is not tracked here;
no claim concerns the remap itself). -/
def segFaces (vals : List ℚ) (n : ℕ) (faces : List (List ℕ)) (seg : ℕ) :
    List (List ℕ) :=
  faces.foldl (segFacesStep vals n seg) []

/-- Fatal errors of the bucket strategy. -/
inductive SplitError where
  | attributeNotFound
deriving DecidableEq, Repr

/-- `road_split.py` `split_road_by_len`: returns the produced segment
objects (name, face list) or the fatal error, together with the list of
helper objects left linked in the scene after the call.  On the error path
(lines 22–27) the intermediate `<name>_segmented` duplicate linked at line
16 is **not** removed; on the success path it is removed (lines 75–77). -/
def split_road_by_len (objName : String) (m : BMesh) (n : ℕ)
    (attrName : String) :
    Except SplitError (List (String × List (List ℕ))) × List String :=
  match m.attrs.lookup attrName with
  | none => (Except.error SplitError.attributeNotFound, [objName ++ "_segmented"])
  | some vals =>
      let emitted := (List.range n).filterMap (fun seg =>
        let fs := segFaces vals n m.faces seg
        if fs = [] then none
        else some (objName ++ "_seg" ++ toString seg, fs))
      (Except.ok emitted, [])

/-! ## Curve-driven strategy: `split_road_mesh.py` -/

/-- A Blender spline: its `type` string, its Bezier control points
(`bezier_points[..].co`) and its generic control points
(`points[..].co[:3]`, used by the poly/NURBS fallback). -/
structure Spline where
  type : String
  bezier_points : List Vec3
  points : List Vec3
deriving DecidableEq, Repr

/-- A Blender curve object: its splines and its world transform. -/
structure CurveObj where
  splines : List Spline
  matrix_world : Affine
deriving DecidableEq, Repr

/-- `split_road_mesh.py` lines 160–178, `evaluate_bezier_spline`: linear
interpolation between adjacent Bezier control points with the local secant
as tangent.  `int()` clamps are exact here since `t ∈ [0, 1]` at all call
sites, so the truncated index is nonnegative. -/
def evaluate_bezier_spline (s : Spline) (t : ℚ) : Vec3 × Vec3 :=
  if s.bezier_points.length < 2 then (⟨0, 0, 0⟩, ⟨1, 0, 0⟩)
  else
    let n := s.bezier_points.length
    let idx : ℤ := min (pyInt (t * ((n : ℚ) - 1))) ((n : ℤ) - 2)
    let local_t : ℚ := t * ((n : ℚ) - 1) - (idx : ℚ)
    let p1 := s.bezier_points.getD idx.toNat default
    let p2 := s.bezier_points.getD (idx.toNat + 1) default
    (Vec3.lerp p1 p2 local_t, Vec3.normalized (p2 - p1))

/-- `split_road_mesh.py` lines 180–198, `fallback_curve_evaluation`: treat
the raw control points as a polyline. -/
def fallback_curve_evaluation (s : Spline) (t : ℚ) : Vec3 × Vec3 :=
  if 1 < s.points.length then
    let n := s.points.length
    let idx : ℤ := min (pyInt (t * ((n : ℚ) - 1))) ((n : ℤ) - 2)
    let local_t : ℚ := t * ((n : ℚ) - 1) - (idx : ℚ)
    let p1 := s.points.getD idx.toNat default
    let p2 := s.points.getD (idx.toNat + 1) default
    (Vec3.lerp p1 p2 local_t, Vec3.normalized (p2 - p1))
  else (⟨0, 0, 0⟩, ⟨1, 0, 0⟩)

/-- `split_road_mesh.py` lines 100–117: Bezier splines with ≥ 2 control
points use `evaluate_bezier_spline`; every other spline lands in
`fallback_curve_evaluation`, because `bpy` splines expose no `calc_point`
method, so the `try` block at lines 105–114 always raises and is caught at
line 115. -/
def evalSplineAt (s : Spline) (t : ℚ) : Vec3 × Vec3 :=
  if s.type = "BEZIER" ∧ 2 ≤ s.bezier_points.length then
    evaluate_bezier_spline s t
  else fallback_curve_evaluation s t

/-- `split_road_mesh.py` lines 92–125: dense evaluation at
`resolution = 200`, i.e. 201 parameter steps `t = i / 200`, transformed to
world space; the tangent is mapped by the 3×3 part and renormalized. -/
def denseSamples (world : Affine) (s : Spline) : List (Vec3 × Vec3) :=
  (List.range (200 + 1)).map (fun i =>
    let t : ℚ := (i : ℚ) / 200
    let pt := evalSplineAt s t
    (world.apply pt.1, Vec3.normalized (world.applyLinear pt.2)))

/-- Tail of the cumulative-distance table: running total `acc` after the
point `prev`. -/
def cumDistFrom (prev : Vec3) (acc : ℚ) : List Vec3 → List ℚ
  | [] => []
  | q :: qs =>
      (acc + Vec3.length (q - prev)) ::
        cumDistFrom q (acc + Vec3.length (q - prev)) qs

/-- `split_road_mesh.py` lines 128–133: `distances = [0.0]` then cumulative
Euclidean distances between consecutive dense samples. -/
def cumDistances : List Vec3 → List ℚ
  | [] => [0]
  | p :: ps => 0 :: cumDistFrom p 0 ps

/-- `split_road_mesh.py` lines 280–283: scan `i` over `0 .. len - 2` for the
bracketing pair of cumulative distances, structurally over the remaining
suffix of the table (`n` is the full table length, fixing the divisor
`len(distances) - 1`).  When two consecutive distances are equal and hit
the target, Python's division raises; rational division by zero yields `0`
instead — all theorems below use strictly increasing distance tables where
the branch divisor is nonzero. -/
def findTAux (n : ℕ) (target : ℚ) : List ℚ → ℕ → ℚ
  | d0 :: d1 :: rest, i =>
      if d0 ≤ target ∧ target ≤ d1 then
        ((i : ℚ) + (target - d0) / (d1 - d0)) / ((n : ℚ) - 1)
      else findTAux n target (d1 :: rest) (i + 1)
  | _, _ => 0

/-- `split_road_mesh.py` lines 275–285, `find_t_for_distance`. -/
def find_t_for_distance (dists : List ℚ) (target total : ℚ) : ℚ :=
  if total ≤ target then 1 else findTAux dists.length target dists 0

/-- `split_road_mesh.py` lines 142–154: body of one resampling iteration —
locate `t` for the target distance, clamp the dense index, and interpolate
position and (renormalized) tangent. -/
def interpSample (pts tans : List Vec3) (dists : List ℚ) (total target : ℚ) :
    Vec3 × Vec3 :=
  let t := find_t_for_distance dists target total
  let np := pts.length
  let idx : ℤ := min (pyInt (t * ((np : ℚ) - 1))) ((np : ℤ) - 2)
  let local_t : ℚ := t * ((np : ℚ) - 1) - (idx : ℚ)
  (Vec3.lerp (pts.getD idx.toNat default) (pts.getD (idx.toNat + 1) default)
      local_t,
    Vec3.normalized (Vec3.lerp (tans.getD idx.toNat default)
      (tans.getD (idx.toNat + 1) default) local_t))

/-- One unfolding of the `while current_distance <= total_length` loop
(`split_road_mesh.py` lines 141–156), structurally recursive on a fuel
count so that it evaluates in the kernel.  The source assumes a positive
step (it would not terminate otherwise), so `0 < L` is part of the guard. -/
def resampleGo (pts tans : List Vec3) (dists : List ℚ) (total L : ℚ) :
    ℚ → ℕ → List (Vec3 × Vec3)
  | _, 0 => []
  | cur, fuel + 1 =>
      if cur ≤ total ∧ 0 < L then
        interpSample pts tans dists total cur ::
          resampleGo pts tans dists total L (cur + L) fuel
      else []

/-- `split_road_mesh.py` lines 139–156: the resampling loop, run with fuel
`⌊(total - cur)/L⌋ + 2`, which exceeds the iteration count of the source's
`while` loop whenever `0 < L` (so the fuel never runs out; see
`resampleGo_map`). -/
def resampleLoop (pts tans : List Vec3) (dists : List ℚ) (total L cur : ℚ) :
    List (Vec3 × Vec3) :=
  resampleGo pts tans dists total L cur (⌊(total - cur) / L⌋ + 2).toNat

/-- `split_road_mesh.py` lines 81–158, `sample_curve_properly`: reads only
`splines[0]`; returns empty lists when the curve has no splines. -/
def sample_curve_properly (c : CurveObj) (L : ℚ) : List Vec3 × List Vec3 :=
  match c.splines with
  | [] => ([], [])
  | s :: _ =>
      let dense := denseSamples c.matrix_world s
      let temp_points := dense.map Prod.fst
      let temp_tangents := dense.map Prod.snd
      let dists := cumDistances temp_points
      let total := dists.getLastD 0
      let samples := resampleLoop temp_points temp_tangents dists total L 0
      (samples.map Prod.fst, samples.map Prod.snd)

/-- `split_road_mesh.py` lines 337–344: one cutting plane per interior
sample (`range(1, len(sample_points) - 1)`), normal = normalized tangent. -/
def cuttingPlanes (sample_points sample_tangents : List Vec3) :
    List (Vec3 × Vec3) :=
  (List.range' 1 (sample_points.length - 2)).map (fun i =>
    (sample_points.getD i default,
      Vec3.normalized (sample_tangents.getD i default)))

/-- `split_road_mesh.py` lines 369–385: per-vertex keep decision of segment
`i` against the start plane `i - 1` and end plane `i`. -/
def keepVertex (planes : List (Vec3 × Vec3)) (overlap : ℚ) (i : ℕ)
    (p : Vec3) : Bool :=
  let keepA : Bool :=
    if 0 < i then
      if Vec3.dot (p - (planes.getD (i - 1) default).1)
          (planes.getD (i - 1) default).2 < -overlap then false else true
    else true
  if i < planes.length ∧ keepA = true then
    if overlap < Vec3.dot (p - (planes.getD i default).1)
        (planes.getD i default).2 then false else keepA
  else keepA

/-- The vertices segment `i` keeps: the working-copy vertices surviving the
plane checks, tested at their world position. -/
def segmentVerts (verts : List Vec3) (world : Affine)
    (planes : List (Vec3 × Vec3)) (overlap : ℚ) (i : ℕ) : List Vec3 :=
  verts.filter (fun v => keepVertex planes overlap i (world.apply v))

/-- `split_road_mesh.py` lines 329–403,
`create_segments_with_cutting_planes`: one output object per
`i ∈ range(len(sample_points) - 1)`, emitted unconditionally (also when
every vertex was removed); `overlap = segment_length * 0.1`. -/
def create_segments_with_cutting_planes (verts : List Vec3) (world : Affine)
    (sample_points sample_tangents : List Vec3) (segment_length : ℚ) :
    List (List Vec3) :=
  let planes := cuttingPlanes sample_points sample_tangents
  let overlap := segment_length * (1 / 10)
  (List.range (sample_points.length - 1)).map
    (segmentVerts verts world planes overlap)

/-! ## Virtual centerline: `find_road_centerline_from_mesh` -/

/-- Python `min(f(v) for v in vs)` on coordinates (junk `0` on the empty
list; callers guard nonemptiness). -/
def coordMin (f : Vec3 → ℚ) (vs : List Vec3) : ℚ :=
  match vs with
  | [] => 0
  | v :: rest => pyMin (f v) (rest.map f)

/-- Python `max(f(v) for v in vs)` on coordinates. -/
def coordMax (f : Vec3 → ℚ) (vs : List Vec3) : ℚ :=
  match vs with
  | [] => 0
  | v :: rest => pyMax (f v) (rest.map f)

/-- `split_road_mesh.py` lines 241–250: pick the coordinate of the dominant
(largest-extent) bounding-box axis as the sort key. -/
def dominantSortKey (vertices : List Vec3) : Vec3 → ℚ :=
  let dimx := coordMax Vec3.x vertices - coordMin Vec3.x vertices
  let dimy := coordMax Vec3.y vertices - coordMin Vec3.y vertices
  let dimz := coordMax Vec3.z vertices - coordMin Vec3.z vertices
  if dimx ≥ dimy ∧ dimx ≥ dimz then Vec3.x
  else if dimy ≥ dimx ∧ dimy ≥ dimz then Vec3.y
  else Vec3.z

/-- Sum of a list of vectors (`centroid += v` loop). -/
def vecSum (vs : List Vec3) : Vec3 := vs.foldl (· + ·) ⟨0, 0, 0⟩

/-- `centroid /= len(nearby_vertices)`. -/
def centroidOf (vs : List Vec3) : Vec3 :=
  Vec3.smul (1 / (vs.length : ℚ)) (vecSum vs)

/-- `split_road_mesh.py` lines 259–271: one slice of the centerline loop.
`num_samples = 50`; the slice's axis value is at `progress = i / 49`; the
collection tolerance is `(axis_max - axis_min) / num_samples * 1.5` — 1.5×
the full slice width.  (The source computes `axis_min`/`axis_max` by
sorting and taking the end elements, which equals the min/max of the sort
key.) -/
def centerlineSlice (vertices : List Vec3) (i : ℕ) : Option Vec3 :=
  let sort_key := dominantSortKey vertices
  let axis_min := coordMin sort_key vertices
  let axis_max := coordMax sort_key vertices
  let progress : ℚ := (i : ℚ) / (50 - 1)
  let axis_value := axis_min + progress * (axis_max - axis_min)
  let tolerance := (axis_max - axis_min) / 50 * (3 / 2)
  let nearby := vertices.filter (fun v => |sort_key v - axis_value| < tolerance)
  if nearby = [] then none else some (centroidOf nearby)

/-- `if nearby_vertices: centerline_points.append(centroid)` — append the
slice's centroid when present. -/
def appendSlice {β : Type} (acc : List β) : Option β → List β
  | none => acc
  | some c => acc ++ [c]

/-- `split_road_mesh.py` lines 230–273, `find_road_centerline_from_mesh`:
world-space vertices, empty input short-circuit, then the 50-slice loop
appending one centroid per slice that found nearby vertices. -/
def find_road_centerline_from_mesh (world : Affine) (verts : List Vec3) :
    List Vec3 :=
  let vertices := verts.map world.apply
  if vertices = [] then []
  else
    (List.range 50).foldl
      (fun acc i => appendSlice acc (centerlineSlice vertices i)) []

/-- Modelled from the spec: identical to `centerlineSlice` except that the
tolerance is `1.5×` the slice *half*-width, as §4.3's words state — used
only to refute claim C9's tolerance against the source's. -/
def centerlineSliceSpec (vertices : List Vec3) (i : ℕ) : Option Vec3 :=
  let sort_key := dominantSortKey vertices
  let axis_min := coordMin sort_key vertices
  let axis_max := coordMax sort_key vertices
  let progress : ℚ := (i : ℚ) / (50 - 1)
  let axis_value := axis_min + progress * (axis_max - axis_min)
  let tolerance := (axis_max - axis_min) / 50 / 2 * (3 / 2)
  let nearby := vertices.filter (fun v => |sort_key v - axis_value| < tolerance)
  if nearby = [] then none else some (centroidOf nearby)

/-- Modelled from the spec: the centerline as claim C9 words it (1.5× the
slice half-width); used only for the C9 counterexample. -/
def find_road_centerline_spec (world : Affine) (verts : List Vec3) :
    List Vec3 :=
  let vertices := verts.map world.apply
  if vertices = [] then []
  else
    (List.range 50).foldl
      (fun acc i => appendSlice acc (centerlineSliceSpec vertices i)) []

/-- Scenario B input: a straight-line Bezier spline from the origin to
`(100, 0, 0)` with the identity world transform. -/
def lineCurve : CurveObj :=
  ⟨[⟨"BEZIER", [⟨0, 0, 0⟩, ⟨100, 0, 0⟩], []⟩], Affine.id⟩

/-- The per-slice collection rule as the amended claim C9 states it: the
tolerance is `1.5×` the full slice width `(axis_max - axis_min)/50`
(equivalently 3× the slice half-width), the slice axis values advance by
`progress = i/49`, and a slice with no nearby vertices contributes no
point. -/
def centerlineSliceAmended (vertices : List Vec3) (i : ℕ) : Option Vec3 :=
  let key := dominantSortKey vertices
  let amin := coordMin key vertices
  let amax := coordMax key vertices
  let sliceWidth := (amax - amin) / 50
  let axisValue := amin + (i : ℚ) / 49 * (amax - amin)
  let nearby := vertices.filter (fun v => |key v - axisValue| < (3 / 2) * sliceWidth)
  if nearby = [] then none else some (centroidOf nearby)

/-! ## Theorems -/

/-! ## Helper lemmas on `pyMin` -/

theorem pyMin_le {α : Type} [LinearOrder α] (x : α) (xs : List α) :
    ∀ y ∈ x :: xs, pyMin x xs ≤ y := by
  induction xs generalizing x with
  | nil => intro y hy; rw [List.mem_singleton] at hy; simp [pyMin, hy]
  | cons a xs ih =>
    intro y hy
    simp only [pyMin, List.foldl_cons] at *
    rcases List.mem_cons.1 hy with h | hy'
    · subst h
      exact le_trans (ih (min y a) _ (List.mem_cons_self _ _)) (min_le_left _ _)
    · rcases List.mem_cons.1 hy' with h | hy''
      · subst h
        exact le_trans (ih (min x y) _ (List.mem_cons_self _ _)) (min_le_right _ _)
      · exact ih (min x a) y (List.mem_cons_of_mem _ hy'')

theorem pyMin_mem {α : Type} [LinearOrder α] (x : α) (xs : List α) :
    pyMin x xs ∈ x :: xs := by
  induction xs generalizing x with
  | nil => simp [pyMin]
  | cons a xs ih =>
    simp only [pyMin, List.foldl_cons] at *
    rcases List.mem_cons.1 (ih (min x a)) with h | h
    · rcases min_choice x a with h' | h' <;> rw [h, h']
      · exact List.mem_cons_self _ _
      · exact List.mem_cons_of_mem _ (List.mem_cons_self _ _)
    · exact List.mem_cons_of_mem _ (List.mem_cons_of_mem _ h)

/-! ## Bucket-strategy helper lemmas -/

theorem spanOf_pos (minV maxV : ℚ) : 0 < spanOf minV maxV := by
  unfold spanOf
  split
  · next h => linarith
  · norm_num

theorem attrMin_le (vals : List ℚ) (v : ℚ) (hv : v ∈ vals) : attrMin vals ≤ v := by
  cases vals with
  | nil => cases hv
  | cons a vs => exact pyMin_le a vs v hv

theorem attrMin_mem (vals : List ℚ) (h : vals ≠ []) : attrMin vals ∈ vals := by
  cases vals with
  | nil => exact absurd rfl h
  | cons a vs => exact pyMin_mem a vs

theorem getD_mem (vals : List ℚ) (i : ℕ) (hi : i < vals.length) :
    vals.getD i 0 ∈ vals := by
  rw [List.getD_eq_getElem vals 0 hi]
  exact List.getElem_mem hi

theorem vertToSegment_formula (vals : List ℚ) (n i : ℕ) (hi : i < vals.length) :
    vertToSegment vals n i =
      min ⌊(vals.getD i 0 - attrMin vals) /
            spanOf (attrMin vals) (attrMax vals) * (n : ℚ)⌋ ((n : ℤ) - 1) ∧
    0 ≤ (vals.getD i 0 - attrMin vals) /
          spanOf (attrMin vals) (attrMax vals) * (n : ℚ) := by
  have hmem := getD_mem vals i hi
  have hmin := attrMin_le vals _ hmem
  have hspan := spanOf_pos (attrMin vals) (attrMax vals)
  have harg : 0 ≤ (vals.getD i 0 - attrMin vals) /
      spanOf (attrMin vals) (attrMax vals) * (n : ℚ) :=
    mul_nonneg (div_nonneg (by linarith) hspan.le) (Nat.cast_nonneg n)
  refine ⟨?_, harg⟩
  unfold vertToSegment bucketOf pyInt
  rw [if_pos harg]

theorem vertToSegment_range (vals : List ℚ) (n i : ℕ) (hn : 0 < n)
    (hi : i < vals.length) :
    0 ≤ vertToSegment vals n i ∧ vertToSegment vals n i < (n : ℤ) := by
  obtain ⟨hf, harg⟩ := vertToSegment_formula vals n i hi
  constructor
  · rw [hf]
    exact le_min (Int.floor_nonneg.2 harg) (by omega)
  · rw [hf]
    calc min ⌊(vals.getD i 0 - attrMin vals) /
          spanOf (attrMin vals) (attrMax vals) * (n : ℚ)⌋ ((n : ℤ) - 1)
        ≤ (n : ℤ) - 1 := min_le_right _ _
      _ < (n : ℤ) := by omega

/-- C2: for every vertex value (index `i`) of the named attribute list, with
`numDivisions > 0`, the bucket is `min(⌊(value - minV)/span · n⌋, n - 1)`
where `span = maxV - minV` if `maxV > minV` and `1` otherwise (the `spanOf`
in the statement); consequently `0 ≤ bucket < n`, and when all attribute
values are equal the vertex maps to bucket `0`. -/
theorem C2_vertex_bucket_formula_and_range (vals : List ℚ) (n i : ℕ)
    (hn : 0 < n) (hi : i < vals.length) :
    vertToSegment vals n i =
      min ⌊(vals.getD i 0 - attrMin vals) /
            spanOf (attrMin vals) (attrMax vals) * (n : ℚ)⌋ ((n : ℤ) - 1) ∧
    (0 ≤ vertToSegment vals n i ∧ vertToSegment vals n i < (n : ℤ)) ∧
    ((∀ a ∈ vals, ∀ b ∈ vals, a = b) → vertToSegment vals n i = 0) := by
  have hne : vals ≠ [] := by
    intro h
    rw [h] at hi
    simp at hi
  refine ⟨(vertToSegment_formula vals n i hi).1,
    vertToSegment_range vals n i hn hi, ?_⟩
  intro hall
  have heq : attrMin vals = vals.getD i 0 :=
    hall _ (attrMin_mem vals hne) _ (getD_mem vals i hi)
  rw [(vertToSegment_formula vals n i hi).1, ← heq, sub_self, zero_div,
    zero_mul, Int.floor_zero]
  exact min_eq_left (by omega)

/-- Witness for C2 at Scenario A of the spec: 11 vertices with values
`0..10` and `numDivisions = 10`; the last vertex is in range (and in fact
clamps into bucket 9). -/
theorem C2_vertex_bucket_formula_and_range_witness :
    0 ≤ vertToSegment [0, 1, 2, 3, 4, 5, 6, 7, 8, 9, 10] 10 10 ∧
    vertToSegment [0, 1, 2, 3, 4, 5, 6, 7, 8, 9, 10] 10 10 < (10 : ℤ) :=
  (C2_vertex_bucket_formula_and_range [0, 1, 2, 3, 4, 5, 6, 7, 8, 9, 10]
    10 10 (by decide) (by decide)).2.1

/-- C1: a face is assigned the minimum bucket id among its vertices (the
assignment is a lower bound of the vertex buckets and is attained by one of
them — so it is the exact `min`, not a majority or average), and the face is
assigned to exactly one segment id in `0..numDivisions-1`. -/
theorem C1_face_assigned_min_vertex_bucket (vals : List ℚ) (n : ℕ)
    (face : List ℕ) (hn : 0 < n) (hf : face ≠ [])
    (hidx : ∀ i ∈ face, i < vals.length) :
    (∀ i ∈ face, faceToSegment vals n face ≤ vertToSegment vals n i) ∧
    (∃ i ∈ face, faceToSegment vals n face = vertToSegment vals n i) ∧
    (∃! s : ℕ, s < n ∧ faceToSegment vals n face = (s : ℤ)) := by
  cases face with
  | nil => exact absurd rfl hf
  | cons i0 rest =>
    have hface : faceToSegment vals n (i0 :: rest) =
        pyMin (vertToSegment vals n i0) (rest.map (vertToSegment vals n)) := rfl
    have hle : ∀ i ∈ (i0 :: rest),
        faceToSegment vals n (i0 :: rest) ≤ vertToSegment vals n i := by
      intro i hi
      rw [hface]
      apply pyMin_le
      rcases List.mem_cons.1 hi with h | h
      · rw [h]
        exact List.mem_cons_self _ _
      · exact List.mem_cons_of_mem _ (List.mem_map_of_mem _ h)
    have hexists : ∃ i ∈ (i0 :: rest),
        faceToSegment vals n (i0 :: rest) = vertToSegment vals n i := by
      have hmem := pyMin_mem (vertToSegment vals n i0)
        (rest.map (vertToSegment vals n))
      have hmem' : faceToSegment vals n (i0 :: rest) ∈
          (i0 :: rest).map (vertToSegment vals n) := by
        rw [List.map_cons, hface]
        exact hmem
      obtain ⟨i, hi, hE⟩ := List.mem_map.1 hmem'
      exact ⟨i, hi, hE.symm⟩
    obtain ⟨j, hj, hEj⟩ := hexists
    have hrange := vertToSegment_range vals n j hn (hidx j hj)
    have h0 : 0 ≤ faceToSegment vals n (i0 :: rest) := by
      rw [hEj]; exact hrange.1
    have h1 : faceToSegment vals n (i0 :: rest) < (n : ℤ) := by
      rw [hEj]; exact hrange.2
    refine ⟨hle, ⟨j, hj, hEj⟩,
      ⟨(faceToSegment vals n (i0 :: rest)).toNat, ⟨?_, ?_⟩, ?_⟩⟩
    · omega
    · exact (Int.toNat_of_nonneg h0).symm
    · rintro s ⟨hs, hseq⟩
      omega

/-- Witness for C1: the face `[0, 1, 2]` over attribute values `[0, 5, 10]`
with 2 divisions is assigned exactly one segment id. -/
theorem C1_face_assigned_min_vertex_bucket_witness :
    ∃! s : ℕ, s < 2 ∧ faceToSegment [0, 5, 10] 2 [0, 1, 2] = (s : ℤ) :=
  (C1_face_assigned_min_vertex_bucket [0, 5, 10] 2 [0, 1, 2]
    (by decide) (by decide) (by decide)).2.2

theorem faceToSegment_range (vals : List ℚ) (n : ℕ) (face : List ℕ)
    (hn : 0 < n) (hf : face ≠ []) (hidx : ∀ i ∈ face, i < vals.length) :
    0 ≤ faceToSegment vals n face ∧ faceToSegment vals n face < (n : ℤ) := by
  cases face with
  | nil => exact absurd rfl hf
  | cons i0 rest =>
    have hmem' : faceToSegment vals n (i0 :: rest) ∈
        (i0 :: rest).map (vertToSegment vals n) := by
      rw [List.map_cons]
      exact pyMin_mem _ _
    obtain ⟨j, hj, hE⟩ := List.mem_map.1 hmem'
    rw [← hE]
    exact vertToSegment_range vals n j hn (hidx j hj)

theorem segFaces_foldl_eq (vals : List ℚ) (n seg : ℕ) :
    ∀ (l acc : List (List ℕ)),
      (∀ g ∈ acc, ∀ f ∈ l, g.toFinset ≠ f.toFinset) →
      l.Pairwise (fun a b => a.toFinset ≠ b.toFinset) →
      l.foldl (segFacesStep vals n seg) acc =
        acc ++ l.filter (fun f => decide (faceToSegment vals n f = (seg : ℤ))) := by
  intro l
  induction l with
  | nil => intro acc _ _; simp
  | cons f fs ih =>
    intro acc hacc hpw
    rw [List.foldl_cons, List.filter_cons]
    by_cases hseg : faceToSegment vals n f = (seg : ℤ)
    · have hany : (acc.any (fun g => sameVertSet g f)) = false := by
        rw [List.any_eq_false]
        intro g hg
        simp only [sameVertSet, decide_eq_true_eq]
        exact hacc g hg f (List.mem_cons_self _ _)
      have hstep : segFacesStep vals n seg acc f = acc ++ [f] := by
        unfold segFacesStep
        rw [if_pos hseg, hany]
        simp
      rw [hstep, ih (acc ++ [f]) ?_ (List.Pairwise.sublist (List.sublist_cons_self f fs) hpw)]
      · simp [hseg]
      · intro g hg f' hf'
        rcases List.mem_append.1 hg with h | h
        · exact hacc g h f' (List.mem_cons_of_mem _ hf')
        · rw [List.mem_singleton] at h
          rw [h]
          exact (List.pairwise_cons.1 hpw).1 f' hf'
    · have hstep : segFacesStep vals n seg acc f = acc := by
        unfold segFacesStep
        rw [if_neg hseg]
      rw [hstep, ih acc
        (fun g hg f' hf' => hacc g hg f' (List.mem_cons_of_mem _ hf'))
        (List.Pairwise.sublist (List.sublist_cons_self f fs) hpw)]
      simp [hseg]

theorem segFaces_eq_filter (vals : List ℚ) (n seg : ℕ)
    (faces : List (List ℕ))
    (hdist : faces.Pairwise (fun a b => a.toFinset ≠ b.toFinset)) :
    segFaces vals n faces seg =
      faces.filter (fun f => decide (faceToSegment vals n f = (seg : ℤ))) := by
  unfold segFaces
  rw [segFaces_foldl_eq vals n seg faces [] (by intro g hg; cases hg) hdist]
  simp

theorem sum_filter_faceToSegment (vals : List ℚ) (n : ℕ)
    (l : List (List ℕ))
    (hrange : ∀ f ∈ l, 0 ≤ faceToSegment vals n f ∧
      faceToSegment vals n f < (n : ℤ)) :
    ∑ seg ∈ Finset.range n,
      (l.filter (fun f => decide (faceToSegment vals n f = (seg : ℤ)))).length
      = l.length := by
  induction l with
  | nil => simp
  | cons f fs ih =>
    have hf := hrange f (List.mem_cons_self _ _)
    have hsum : ∀ seg ∈ Finset.range n,
        ((f :: fs).filter
          (fun g => decide (faceToSegment vals n g = (seg : ℤ)))).length =
        (if seg = (faceToSegment vals n f).toNat then 1 else 0) +
        (fs.filter (fun g => decide (faceToSegment vals n g = (seg : ℤ)))).length := by
      intro seg _
      rw [List.filter_cons]
      by_cases h : faceToSegment vals n f = (seg : ℤ)
      · rw [if_pos (by simpa using h), if_pos (by omega)]
        simp
        omega
      · rw [if_neg (by simpa using h), if_neg (by omega)]
        simp
    rw [Finset.sum_congr rfl hsum, Finset.sum_add_distrib,
      ih (fun g hg => hrange g (List.mem_cons_of_mem _ hg)),
      Finset.sum_ite_eq' (Finset.range n) ((faceToSegment vals n f).toNat)
        (fun _ => 1),
      if_pos (Finset.mem_range.2 (by omega))]
    rw [List.length_cons]
    omega

/-- C3: with the attribute present, every input face is assigned to exactly
one bucket segment: the face counts of the per-bucket outputs sum to the
input face count, both over all buckets and over the non-empty buckets only
(empty buckets contribute no faces).  Hypotheses: positive division count,
faces nonempty with in-range vertex indices (Blender mesh validity), and
pairwise distinct face vertex sets (`bmesh` rejects duplicate faces). -/
theorem C3_bucket_partition_preserves_face_count (vals : List ℚ) (n : ℕ)
    (faces : List (List ℕ)) (hn : 0 < n)
    (hne : ∀ f ∈ faces, f ≠ [])
    (hidx : ∀ f ∈ faces, ∀ i ∈ f, i < vals.length)
    (hdist : faces.Pairwise (fun a b => a.toFinset ≠ b.toFinset)) :
    ∑ seg ∈ Finset.range n, (segFaces vals n faces seg).length = faces.length ∧
    ∑ seg ∈ (Finset.range n).filter (fun s => segFaces vals n faces s ≠ []),
      (segFaces vals n faces seg).length = faces.length := by
  have hall : ∑ seg ∈ Finset.range n, (segFaces vals n faces seg).length
      = faces.length := by
    have hrw : ∀ seg ∈ Finset.range n, (segFaces vals n faces seg).length =
        (faces.filter (fun f => decide (faceToSegment vals n f = (seg : ℤ)))).length := by
      intro seg _
      rw [segFaces_eq_filter vals n seg faces hdist]
    rw [Finset.sum_congr rfl hrw]
    exact sum_filter_faceToSegment vals n faces
      (fun f hf => faceToSegment_range vals n f hn (hne f hf) (hidx f hf))
  refine ⟨hall, ?_⟩
  rw [← hall]
  apply Finset.sum_subset (Finset.filter_subset _ _)
  intro s hs hns
  rw [Finset.mem_filter, not_and] at hns
  have : segFaces vals n faces s = [] := by
    by_contra hcon
    exact (hns hs) hcon
  rw [this]
  rfl

/-- Witness for C3: two divisions over three faces with attribute values
`[0, 5, 10]`; the bucket face counts sum to 3. -/
theorem C3_bucket_partition_preserves_face_count_witness :
    ∑ seg ∈ Finset.range 2,
      (segFaces [0, 5, 10] 2 [[0, 1, 2], [1, 2], [2]] seg).length = 3 :=
  (C3_bucket_partition_preserves_face_count [0, 5, 10] 2
    [[0, 1, 2], [1, 2], [2]] (by decide) (by decide) (by decide)
    (by decide)).1

/-- C7 (amended): if the named per-vertex attribute is absent the bucket
strategy aborts with `AttributeNotFound` and produces zero segment objects,
but the intermediate `<name>_segmented` duplicate — linked into the scene
before the attribute check — is left behind. -/
theorem C7_attribute_not_found_aborts (objName : String) (m : BMesh)
    (n : ℕ) (attrName : String) (h : m.attrs.lookup attrName = none) :
    split_road_by_len objName m n attrName =
      (Except.error SplitError.attributeNotFound,
        [objName ++ "_segmented"]) := by
  unfold split_road_by_len
  rw [h]

/-- Witness for C7 (amended) on a mesh with no attribute layers at all. -/
theorem C7_attribute_not_found_aborts_witness :
    split_road_by_len "road" ⟨[], [], []⟩ 3 "Len" =
      (Except.error SplitError.attributeNotFound, ["road_segmented"]) :=
  C7_attribute_not_found_aborts "road" ⟨[], [], []⟩ 3 "Len" rfl

/-- Counterexample to C7 as stated: on a one-vertex mesh lacking `"Len"`
the call fails with `AttributeNotFound`, yet the scene is left with the
`road_segmented` duplicate object — a partial result remains behind. -/
theorem C7_partial_result_left_behind :
    (split_road_by_len "road" ⟨[⟨0, 0, 0⟩], [[0]], []⟩ 10 "Len").1 =
      Except.error SplitError.attributeNotFound ∧
    (split_road_by_len "road" ⟨[⟨0, 0, 0⟩], [[0]], []⟩ 10 "Len").2 ≠ [] :=
  ⟨rfl, by decide⟩

theorem keepVertex_characterization (planes : List (Vec3 × Vec3))
    (overlap : ℚ) (i : ℕ) (p : Vec3) (hi : i ≤ planes.length) :
    keepVertex planes overlap i p = true ↔
      ((i = 0 ∨ ¬ (Vec3.dot (p - (planes.getD (i - 1) default).1)
          (planes.getD (i - 1) default).2 < -overlap)) ∧
       (i = planes.length ∨ ¬ (overlap < Vec3.dot (p - (planes.getD i default).1)
          (planes.getD i default).2))) := by
  unfold keepVertex
  by_cases h0 : 0 < i <;>
    by_cases hd1 : Vec3.dot (p - (planes.getD (i - 1) default).1)
        (planes.getD (i - 1) default).2 < -overlap <;>
    by_cases hlen : i < planes.length <;>
    by_cases hd2 : overlap < Vec3.dot (p - (planes.getD i default).1)
        (planes.getD i default).2 <;>
    simp_all <;> omega

theorem map_range_getD {α : Type} (f : ℕ → α) (n i : ℕ) (d : α)
    (h : i < n) : ((List.range n).map f).getD i d = f i := by
  rw [List.getD_eq_getElem _ _ (by simpa using h)]
  simp

theorem cuttingPlanes_length (pts tans : List Vec3) :
    (cuttingPlanes pts tans).length = pts.length - 2 := by
  simp [cuttingPlanes]

/-- C4: with `numSamples ≥ 2` sample points the cutting-plane strategy
builds exactly `numSamples - 1` segments and `numSamples - 2` cutting
planes, and segment `i` keeps a vertex `v` of the working copy — tested at
world position `p = world.apply v` — if and only if
`(i = 0 ∨ dot(p - planePoint[i-1], planeNormal[i-1]) ≥ -overlap)` and
`(i = numPlanes ∨ dot(p - planePoint[i], planeNormal[i]) ≤ overlap)`,
with `overlap = segment_length * 0.1`. -/
theorem C4_cutting_plane_classification (verts : List Vec3) (world : Affine)
    (pts tans : List Vec3) (L : ℚ) (hn : 2 ≤ pts.length) :
    (create_segments_with_cutting_planes verts world pts tans L).length =
      pts.length - 1 ∧
    (cuttingPlanes pts tans).length = pts.length - 2 ∧
    (∀ i < pts.length - 1, ∀ v : Vec3,
      v ∈ (create_segments_with_cutting_planes verts world pts tans L).getD i []
      ↔ v ∈ verts ∧
        ((i = 0 ∨ -(L * (1 / 10)) ≤
            Vec3.dot (world.apply v -
                ((cuttingPlanes pts tans).getD (i - 1) default).1)
              ((cuttingPlanes pts tans).getD (i - 1) default).2) ∧
         (i = (cuttingPlanes pts tans).length ∨
            Vec3.dot (world.apply v -
                ((cuttingPlanes pts tans).getD i default).1)
              ((cuttingPlanes pts tans).getD i default).2 ≤ L * (1 / 10)))) := by
  refine ⟨?_, cuttingPlanes_length pts tans, ?_⟩
  · simp [create_segments_with_cutting_planes]
  · intro i hi v
    have hgetD :
        (create_segments_with_cutting_planes verts world pts tans L).getD i []
          = segmentVerts verts world (cuttingPlanes pts tans)
              (L * (1 / 10)) i := by
      simp only [create_segments_with_cutting_planes]
      exact map_range_getD _ _ _ _ hi
    have hi' : i ≤ (cuttingPlanes pts tans).length := by
      rw [cuttingPlanes_length]
      omega
    rw [hgetD]
    unfold segmentVerts
    rw [List.mem_filter,
      keepVertex_characterization (cuttingPlanes pts tans) (L * (1 / 10)) i
        (world.apply v) hi']
    simp [not_lt]

/-- Witness for C4: three collinear sample points, one vertex; the strategy
builds two segments. -/
theorem C4_cutting_plane_classification_witness :
    (create_segments_with_cutting_planes [⟨0, 0, 0⟩] Affine.id
      [⟨-1, 0, 0⟩, ⟨0, 0, 0⟩, ⟨1, 0, 0⟩]
      [⟨1, 0, 0⟩, ⟨1, 0, 0⟩, ⟨1, 0, 0⟩] 10).length =
    ([⟨-1, 0, 0⟩, ⟨0, 0, 0⟩, ⟨1, 0, 0⟩] : List Vec3).length - 1 :=
  (C4_cutting_plane_classification [⟨0, 0, 0⟩] Affine.id
    [⟨-1, 0, 0⟩, ⟨0, 0, 0⟩, ⟨1, 0, 0⟩]
    [⟨1, 0, 0⟩, ⟨1, 0, 0⟩, ⟨1, 0, 0⟩] 10 (by decide)).1

theorem exists_keep_interval (d : ℕ → ℚ) (k : ℕ) :
    ∃ i ≤ k, (i = 0 ∨ 0 ≤ d (i - 1)) ∧ (i = k ∨ d i ≤ 0) := by
  by_cases hall : ∀ j < k, ¬ d j ≤ 0
  · refine ⟨k, le_rfl, ?_, Or.inl rfl⟩
    rcases Nat.eq_zero_or_pos k with hk | hk
    · exact Or.inl hk
    · exact Or.inr (le_of_lt (not_le.1 (hall (k - 1) (by omega))))
  · push_neg at hall
    obtain ⟨j0, hj0k, hj0⟩ := hall
    have hP : ∃ j, j < k ∧ d j ≤ 0 := ⟨j0, hj0k, hj0⟩
    have hj := Nat.find_spec hP
    refine ⟨Nat.find hP, le_of_lt hj.1, ?_, Or.inr hj.2⟩
    rcases Nat.eq_zero_or_pos (Nat.find hP) with h | h
    · exact Or.inl h
    · right
      have hmin := Nat.find_min hP (show Nat.find hP - 1 < Nat.find hP by omega)
      have hnot : ¬ d (Nat.find hP - 1) ≤ 0 := fun hc =>
        hmin ⟨by omega, hc⟩
      linarith [not_le.1 hnot]

/-- C5 (amended): with `overlap = 0` the cutting-plane classification keeps
every vertex in at least one of the `numSamples - 1` segments, and a vertex
kept by two adjacent segments lies exactly on their shared cutting plane
(signed distance `0`); it is NOT a hard partition — vertices on a plane are
shared. -/
theorem C5_zero_overlap_coverage_and_boundary (verts : List Vec3)
    (world : Affine) (pts tans : List Vec3) (hn : 2 ≤ pts.length) :
    (∀ v ∈ verts, ∃ i < pts.length - 1,
      v ∈ segmentVerts verts world (cuttingPlanes pts tans) 0 i) ∧
    (∀ v : Vec3, ∀ i : ℕ, i + 1 < pts.length - 1 →
      v ∈ segmentVerts verts world (cuttingPlanes pts tans) 0 i →
      v ∈ segmentVerts verts world (cuttingPlanes pts tans) 0 (i + 1) →
      Vec3.dot (world.apply v -
          ((cuttingPlanes pts tans).getD i default).1)
        ((cuttingPlanes pts tans).getD i default).2 = 0) := by
  have hplen : (cuttingPlanes pts tans).length = pts.length - 2 :=
    cuttingPlanes_length pts tans
  constructor
  · intro v hv
    obtain ⟨i, hik, h1, h2⟩ := exists_keep_interval
      (fun j => Vec3.dot (world.apply v -
          ((cuttingPlanes pts tans).getD j default).1)
        ((cuttingPlanes pts tans).getD j default).2)
      (cuttingPlanes pts tans).length
    refine ⟨i, by omega, ?_⟩
    unfold segmentVerts
    rw [List.mem_filter]
    refine ⟨hv, (keepVertex_characterization _ 0 i _ hik).2 ⟨?_, ?_⟩⟩
    · rcases h1 with h | h
      · exact Or.inl h
      · exact Or.inr (by rw [not_lt]; linarith)
    · rcases h2 with h | h
      · exact Or.inl h
      · exact Or.inr (by rw [not_lt]; linarith)
  · intro v i hi hmem hmem'
    have hik : i ≤ (cuttingPlanes pts tans).length := by omega
    have hik' : i + 1 ≤ (cuttingPlanes pts tans).length := by omega
    unfold segmentVerts at hmem hmem'
    rw [List.mem_filter] at hmem hmem'
    have hk := (keepVertex_characterization _ 0 i _ hik).1 hmem.2
    have hk' := (keepVertex_characterization _ 0 (i + 1) _ hik').1 hmem'.2
    have hle : Vec3.dot (world.apply v -
        ((cuttingPlanes pts tans).getD i default).1)
      ((cuttingPlanes pts tans).getD i default).2 ≤ 0 := by
      rcases hk.2 with h | h
      · omega
      · linarith [not_lt.1 h]
    have hge : 0 ≤ Vec3.dot (world.apply v -
        ((cuttingPlanes pts tans).getD i default).1)
      ((cuttingPlanes pts tans).getD i default).2 := by
      rcases hk'.1 with h | h
      · omega
      · have := not_lt.1 h
        simpa using this
    linarith

/-- Witness for C5 (amended): a vertex strictly inside segment 0 of a
two-segment split is kept by at least one segment. -/
theorem C5_zero_overlap_coverage_and_boundary_witness :
    ∃ i < ([⟨-1, 0, 0⟩, ⟨0, 0, 0⟩, ⟨1, 0, 0⟩] : List Vec3).length - 1,
      (⟨-1, 0, 0⟩ : Vec3) ∈ segmentVerts [⟨-1, 0, 0⟩] Affine.id
        (cuttingPlanes [⟨-1, 0, 0⟩, ⟨0, 0, 0⟩, ⟨1, 0, 0⟩]
          [⟨1, 0, 0⟩, ⟨1, 0, 0⟩, ⟨1, 0, 0⟩]) 0 i :=
  (C5_zero_overlap_coverage_and_boundary [⟨-1, 0, 0⟩] Affine.id
    [⟨-1, 0, 0⟩, ⟨0, 0, 0⟩, ⟨1, 0, 0⟩]
    [⟨1, 0, 0⟩, ⟨1, 0, 0⟩, ⟨1, 0, 0⟩] (by decide)).1
    ⟨-1, 0, 0⟩ (by decide)

/-- Counterexample to C5 as stated: with `overlap = 0`, the vertex at the
origin lies exactly on the single cutting plane and is kept by BOTH
adjacent segments 0 and 1 — the classification is not a hard partition. -/
theorem C5_on_plane_vertex_shared_by_adjacent_segments :
    (⟨0, 0, 0⟩ : Vec3) ∈ segmentVerts [⟨0, 0, 0⟩] Affine.id
      (cuttingPlanes [⟨-1, 0, 0⟩, ⟨0, 0, 0⟩, ⟨1, 0, 0⟩]
        [⟨1, 0, 0⟩, ⟨1, 0, 0⟩, ⟨1, 0, 0⟩]) 0 0 ∧
    (⟨0, 0, 0⟩ : Vec3) ∈ segmentVerts [⟨0, 0, 0⟩] Affine.id
      (cuttingPlanes [⟨-1, 0, 0⟩, ⟨0, 0, 0⟩, ⟨1, 0, 0⟩]
        [⟨1, 0, 0⟩, ⟨1, 0, 0⟩, ⟨1, 0, 0⟩]) 0 1 := by
  constructor <;> decide

theorem resampleGo_nil (pts tans : List Vec3) (dists : List ℚ)
    (total L cur : ℚ) (fuel : ℕ) (h : ¬ (cur ≤ total ∧ 0 < L)) :
    resampleGo pts tans dists total L cur fuel = [] := by
  cases fuel with
  | zero => rfl
  | succ f => simp [resampleGo, h]

theorem resampleGo_map (pts tans : List Vec3) (dists : List ℚ)
    (total L : ℚ) (hL : 0 < L) :
    ∀ (N : ℕ) (cur : ℚ) (fuel : ℕ), cur ≤ total →
      ⌊(total - cur) / L⌋.toNat = N → N + 1 ≤ fuel →
      resampleGo pts tans dists total L cur fuel =
        (List.range (N + 1)).map
          (fun (k : ℕ) => interpSample pts tans dists total (cur + (k : ℚ) * L)) := by
  intro N
  induction N with
  | zero =>
    intro cur fuel hc hN hfuel
    obtain ⟨f, rfl⟩ : ∃ f, fuel = f + 1 := ⟨fuel - 1, by omega⟩
    have h0 : 0 ≤ (total - cur) / L := div_nonneg (by linarith) hL.le
    have hfl : ⌊(total - cur) / L⌋ = 0 := by
      have := Int.floor_nonneg.2 h0
      omega
    have hlt1 : (total - cur) / L < 1 := by
      have := Int.lt_floor_add_one ((total - cur) / L)
      rw [hfl] at this
      simpa using this
    have hlt : total - cur < L := by
      have := (div_lt_one hL).1 hlt1
      linarith
    simp only [resampleGo]
    rw [if_pos (And.intro hc hL),
      resampleGo_nil pts tans dists total L (cur + L) f
        (by intro hcon; linarith [hcon.1])]
    simp only [List.range_succ, List.range_zero, List.nil_append,
      List.map_cons, List.map_nil]
    norm_num
  | succ N ih =>
    intro cur fuel hc hN hfuel
    obtain ⟨f, rfl⟩ : ∃ f, fuel = f + 1 := ⟨fuel - 1, by omega⟩
    have h0 : 0 ≤ (total - cur) / L := div_nonneg (by linarith) hL.le
    have hfl : ⌊(total - cur) / L⌋ = (N : ℤ) + 1 := by
      have := Int.floor_nonneg.2 h0
      omega
    have h1le : (1 : ℚ) ≤ (total - cur) / L := by
      have h1 : (1 : ℤ) ≤ ⌊(total - cur) / L⌋ := by omega
      have h2 : ((1 : ℤ) : ℚ) ≤ (⌊(total - cur) / L⌋ : ℚ) := by
        exact_mod_cast h1
      calc (1 : ℚ) = ((1 : ℤ) : ℚ) := by norm_num
        _ ≤ (⌊(total - cur) / L⌋ : ℚ) := h2
        _ ≤ (total - cur) / L := Int.floor_le _
    have hcL : cur + L ≤ total := by
      have hmul := mul_le_mul_of_nonneg_right h1le hL.le
      rw [one_mul, div_mul_cancel₀ _ (ne_of_gt hL)] at hmul
      linarith
    have hrec : ⌊(total - (cur + L)) / L⌋.toNat = N := by
      have he : (total - (cur + L)) / L = (total - cur) / L - 1 := by
        rw [show total - (cur + L) = (total - cur) - L by ring, sub_div,
          div_self (ne_of_gt hL)]
      rw [he, Int.floor_sub_one, hfl]
      omega
    simp only [resampleGo]
    rw [if_pos (And.intro hc hL), ih (cur + L) f hcL hrec (by omega)]
    nth_rewrite 2 [List.range_succ_eq_map]
    rw [List.map_cons, List.map_map]
    congr 1
    · simp
    · apply List.map_congr_left
      intro k _
      simp only [Function.comp]
      congr 1
      push_cast
      ring

theorem resampleLoop_closed (pts tans : List Vec3) (dists : List ℚ)
    (total L : ℚ) (hL : 0 < L) (htot : 0 ≤ total) :
    resampleLoop pts tans dists total L 0 =
      (List.range (⌊total / L⌋.toNat + 1)).map
        (fun (k : ℕ) => interpSample pts tans dists total ((k : ℚ) * L)) := by
  unfold resampleLoop
  have h2 : 0 ≤ ⌊total / L⌋ := Int.floor_nonneg.2 (div_nonneg htot hL.le)
  rw [resampleGo_map pts tans dists total L hL (⌊total / L⌋.toNat) 0 _ htot
    (by rw [sub_zero]) (by rw [sub_zero]; omega)]
  apply List.map_congr_left
  intro k _
  norm_num

set_option maxRecDepth 10000 in
set_option maxHeartbeats 4000000 in
/-- C6: arc-length resampling emits samples exactly at the target distances
`0, L, 2L, …`: the loop output is `interpSample` mapped over `k·L` for
`k = 0 .. ⌊total/L⌋` (so it is ordered by target distance), its length is
`⌊total/L⌋ + 1 ≤ ⌈total/L⌉ + 1`, every target distance lies in
`[0, total]`; and Scenario B: a straight-line spline of length 100 sampled
with segment length 25 yields exactly 5 SamplePoints at distances
0, 25, 50, 75, 100, all tangents equal to the line direction `(1,0,0)`. -/
theorem C6_resampling_count_and_scenarioB (pts tans : List Vec3)
    (dists : List ℚ) (total L : ℚ) (hL : 0 < L) (htot : 0 ≤ total) :
    resampleLoop pts tans dists total L 0 =
      (List.range (⌊total / L⌋.toNat + 1)).map
        (fun (k : ℕ) => interpSample pts tans dists total ((k : ℚ) * L)) ∧
    (resampleLoop pts tans dists total L 0).length = ⌊total / L⌋.toNat + 1 ∧
    ((⌊total / L⌋.toNat + 1 : ℤ) ≤ ⌈total / L⌉ + 1) ∧
    (∀ k ≤ ⌊total / L⌋.toNat, 0 ≤ (k : ℚ) * L ∧ (k : ℚ) * L ≤ total) ∧
    sample_curve_properly lineCurve 25 =
      ([⟨0, 0, 0⟩, ⟨25, 0, 0⟩, ⟨50, 0, 0⟩, ⟨75, 0, 0⟩, ⟨100, 0, 0⟩],
       [⟨1, 0, 0⟩, ⟨1, 0, 0⟩, ⟨1, 0, 0⟩, ⟨1, 0, 0⟩, ⟨1, 0, 0⟩]) := by
  have hcf := resampleLoop_closed pts tans dists total L hL htot
  have h2 : 0 ≤ ⌊total / L⌋ := Int.floor_nonneg.2 (div_nonneg htot hL.le)
  refine ⟨hcf, ?_, ?_, ?_, ?_⟩
  · rw [hcf]
    simp
  · have := Int.floor_le_ceil (total / L)
    omega
  · intro k hk
    refine ⟨mul_nonneg (Nat.cast_nonneg k) hL.le, ?_⟩
    have h3 : ((⌊total / L⌋.toNat : ℤ) : ℚ) = ((⌊total / L⌋ : ℤ) : ℚ) := by
      rw [Int.toNat_of_nonneg h2]
    have hk' : (k : ℚ) ≤ total / L := by
      calc (k : ℚ) ≤ ((⌊total / L⌋.toNat : ℕ) : ℚ) := by exact_mod_cast hk
        _ = ((⌊total / L⌋.toNat : ℤ) : ℚ) := by push_cast; ring
        _ = ((⌊total / L⌋ : ℤ) : ℚ) := h3
        _ ≤ total / L := Int.floor_le _
    calc (k : ℚ) * L ≤ total / L * L := mul_le_mul_of_nonneg_right hk' hL.le
      _ = total := div_mul_cancel₀ total (ne_of_gt hL)
  · decide

/-- Witness for C6: instantiated at an empty dense table with
`total = 0, L = 1` (the scenario conjunct restated through the theorem). -/
theorem C6_resampling_count_and_scenarioB_witness :
    sample_curve_properly lineCurve 25 =
      ([⟨0, 0, 0⟩, ⟨25, 0, 0⟩, ⟨50, 0, 0⟩, ⟨75, 0, 0⟩, ⟨100, 0, 0⟩],
       [⟨1, 0, 0⟩, ⟨1, 0, 0⟩, ⟨1, 0, 0⟩, ⟨1, 0, 0⟩, ⟨1, 0, 0⟩]) :=
  (C6_resampling_count_and_scenarioB [] [] [] 0 1 (by norm_num)
    (by norm_num)).2.2.2.2

/-- C8 (amended): the BUCKET strategy skips an empty bucket — an object for
bucket `seg` is in the (successful) result iff the bucket has faces — while
the CUTTING-PLANE strategy emits one object per interval unconditionally
(`numSamples - 1` objects even when an interval keeps no geometry). -/
theorem C8_empty_segment_handling (objName : String) (m : BMesh) (n : ℕ)
    (attrName : String) (vals : List ℚ)
    (hattr : m.attrs.lookup attrName = some vals) (seg : ℕ) (hseg : seg < n)
    (verts : List Vec3) (world : Affine) (pts tans : List Vec3) (L : ℚ) :
    (∃ r, (split_road_by_len objName m n attrName).1 = Except.ok r ∧
      ((objName ++ "_seg" ++ toString seg, segFaces vals n m.faces seg) ∈ r ↔
        segFaces vals n m.faces seg ≠ [])) ∧
    (create_segments_with_cutting_planes verts world pts tans L).length =
      pts.length - 1 := by
  constructor
  · simp only [split_road_by_len, hattr]
    refine ⟨_, rfl, ?_, ?_⟩
    · intro hmem
      rw [List.mem_filterMap] at hmem
      obtain ⟨s, _, hsome⟩ := hmem
      by_cases h : segFaces vals n m.faces s = []
      · simp [h] at hsome
      · rw [if_neg h] at hsome
        injection hsome with hpair
        injection hpair with h1 h2
        rw [← h2]
        exact h
    · intro hne
      rw [List.mem_filterMap]
      exact ⟨seg, List.mem_range.2 hseg, by rw [if_neg hne]⟩
  · simp [create_segments_with_cutting_planes]

/-- Witness for C8 (amended), Scenario C shaped: all attribute values equal
`5`, four divisions; bucket 0 holds the single face and is emitted. -/
theorem C8_empty_segment_handling_witness :
    ∃ r, (split_road_by_len "road"
        ⟨[⟨0, 0, 0⟩, ⟨1, 0, 0⟩, ⟨2, 0, 0⟩], [[0, 1, 2]], [("Len", [5, 5, 5])]⟩
        4 "Len").1 = Except.ok r ∧
      (("road" ++ "_seg" ++ toString 0,
          segFaces [5, 5, 5] 4 [[0, 1, 2]] 0) ∈ r ↔
        segFaces [5, 5, 5] 4 [[0, 1, 2]] 0 ≠ []) :=
  (C8_empty_segment_handling "road"
    ⟨[⟨0, 0, 0⟩, ⟨1, 0, 0⟩, ⟨2, 0, 0⟩], [[0, 1, 2]], [("Len", [5, 5, 5])]⟩
    4 "Len" [5, 5, 5] rfl 0 (by decide) [] Affine.id [] [] 0).1

/-- Counterexample to C8 as stated: in the cutting-plane strategy a
plane-interval that keeps zero vertices (hence zero faces) still emits an
output object — the second emitted segment below is empty. -/
theorem C8_empty_plane_interval_still_emitted :
    create_segments_with_cutting_planes [⟨-7, 0, 0⟩] Affine.id
      [⟨-10, 0, 0⟩, ⟨0, 0, 0⟩, ⟨10, 0, 0⟩]
      [⟨1, 0, 0⟩, ⟨1, 0, 0⟩, ⟨1, 0, 0⟩] 10 =
    [[⟨-7, 0, 0⟩], []] := by decide

/-- C10: curve sampling reads only `splines[0]` — replacing every other
spline leaves the SamplePoints unchanged — and a curve with zero splines
yields empty point and tangent lists. -/
theorem C10_only_first_spline_read (s : Spline) (rest rest' : List Spline)
    (w : Affine) (L : ℚ) :
    sample_curve_properly ⟨s :: rest, w⟩ L =
      sample_curve_properly ⟨s :: rest', w⟩ L ∧
    sample_curve_properly ⟨[], w⟩ L = ([], []) :=
  ⟨rfl, rfl⟩

theorem centerlineSlice_eq_amended (vertices : List Vec3) (i : ℕ) :
    centerlineSlice vertices i = centerlineSliceAmended vertices i := by
  simp only [centerlineSlice, centerlineSliceAmended]
  simp only [show ((50 : ℚ) - 1) = 49 by norm_num,
    show ∀ a : ℚ, a / 50 * (3 / 2) = 3 / 2 * (a / 50) from fun a => by ring]

theorem foldl_appendSlice_eq_filterMap {α β : Type} (g : α → Option β) :
    ∀ (l : List α) (acc : List β),
      l.foldl (fun acc i => appendSlice acc (g i)) acc =
        acc ++ l.filterMap g := by
  intro l
  induction l with
  | nil => intro acc; simp
  | cons a l ih =>
    intro acc
    simp only [List.foldl_cons, List.filterMap_cons]
    cases hg : g a with
    | none => exact ih acc
    | some c =>
      calc List.foldl (fun acc i => appendSlice acc (g i))
            (appendSlice acc (some c)) l
          = (acc ++ [c]) ++ List.filterMap g l := ih (acc ++ [c])
        _ = acc ++ (c :: List.filterMap g l) := by
            rw [List.append_assoc]
            rfl

/-- C9 (amended): the virtual centerline is the 50-slice loop output: one
mean point per slice whose nearby set — vertices within `1.5×` the full
slice width (3× the half-width) of the slice's axis value — is nonempty,
skipped otherwise, so at most 50 points are produced. -/
theorem C9_centerline_fifty_slices_tolerance (world : Affine)
    (verts : List Vec3) :
    find_road_centerline_from_mesh world verts =
      (List.range 50).filterMap
        (centerlineSliceAmended (verts.map world.apply)) ∧
    (find_road_centerline_from_mesh world verts).length ≤ 50 := by
  have hmain : find_road_centerline_from_mesh world verts =
      (List.range 50).filterMap
        (centerlineSliceAmended (verts.map world.apply)) := by
    unfold find_road_centerline_from_mesh
    have hfun : centerlineSlice (verts.map world.apply) =
        centerlineSliceAmended (verts.map world.apply) :=
      funext (centerlineSlice_eq_amended _)
    by_cases h : verts.map world.apply = []
    · rw [if_pos h]
      symm
      rw [List.filterMap_eq_nil_iff]
      intro i _
      simp [centerlineSliceAmended, h]
    · rw [if_neg h, foldl_appendSlice_eq_filterMap
        (centerlineSlice (verts.map world.apply)) (List.range 50) [],
        List.nil_append, hfun]
  refine ⟨hmain, ?_⟩
  rw [hmain]
  calc ((List.range 50).filterMap
      (centerlineSliceAmended (verts.map world.apply))).length
      ≤ (List.range 50).length := List.length_filterMap_le _ _
    _ = 50 := List.length_range 50

/-- Counterexample to C9 as stated: vertices at x = 0, 2, 98.  The code's
tolerance is 1.5× the slice width (2.94), which admits the x = 2 vertex
into slice 0 (axis value 0), so the first centerline point is the mean
(1, 2, 0); with the claimed 1.5× half-width tolerance (1.47) the slice
would hold only the origin vertex. -/
theorem C9_tolerance_counterexample :
    find_road_centerline_from_mesh Affine.id
        [⟨0, 0, 0⟩, ⟨2, 4, 0⟩, ⟨98, 0, 0⟩] ≠
      find_road_centerline_spec Affine.id
        [⟨0, 0, 0⟩, ⟨2, 4, 0⟩, ⟨98, 0, 0⟩] ∧
    (find_road_centerline_from_mesh Affine.id
        [⟨0, 0, 0⟩, ⟨2, 4, 0⟩, ⟨98, 0, 0⟩]).getD 0 default = ⟨1, 2, 0⟩ := by
  constructor <;> decide
